import Mathlib

/-!
Verification of the opal-uefi-greeter pre-boot unlock agent.

The orchestrator (`run` in src/main.rs), the EFI-file walk
(`find_efi_files_rec`) and the boot-menu index computation are embedded
from the source.  The Opal wire codec and the session layer live in
modules that are not part of the given sources; they are modelled from
the specification, as marked on each definition.
-/

namespace OpalGreeter

/-- Configuration record.  The `config` module is not among the given
sources; the fields are taken from the accesses in src/main.rs
(`config.prompt`, `config.retry_prompt`, `config.clear_on_retry`,
`config.args`). -/
structure Config where
  prompt : Option String
  retry_prompt : Option String
  clear_on_retry : Bool
  args : List String

/-- `config.prompt.as_deref().unwrap_or("password: ")` (main.rs:77). -/
def promptOf (cfg : Config) : String := cfg.prompt.getD "password: "

/-- `config.retry_prompt.as_deref().unwrap_or("bad password, retry: ")` (main.rs:78). -/
def retryPromptOf (cfg : Config) : String := cfg.retry_prompt.getD "bad password, retry: "

/-- Outcome of one `try_unlock_device` call as seen at its call site
(main.rs:83-86): the Rust type is `Result<Result<(), ()>, Error>`, the
outer `Err` being unwrapped by `?`.  `success` is `Ok(Ok(()))`,
`rejected` is `Ok(Err(()))`, `fatal` is `Err(_)`. -/
inductive AttemptResult where
  | success
  | rejected
  | fatal
deriving DecidableEq, Repr

/-- Observable console / device actions of the orchestrator loop. -/
inductive Event where
  | writeStr (s : String)
  | readPassword
  | clearScreen
  | tryUnlock
deriving DecidableEq, Repr

/-- How the per-device `loop` of main.rs:80-92 ends: `break` after a
success, error propagation on a fatal error, or — for a finite script
that never becomes decisive — still running. -/
inductive LoopResult where
  | unlocked
  | fatalErr
  | outOfScript
deriving DecidableEq, Repr

/-- The per-device retry loop of main.rs:80-92, driven by a script of
`try_unlock_device` outcomes (one per operator-supplied password).
Each iteration reads a password (main.rs:81) and calls
`try_unlock_device` (main.rs:83); on `Ok(())` it breaks, on `Err(())`
it optionally clears the screen (main.rs:88-90) and rewrites the retry
prompt (main.rs:91) before looping. -/
def deviceLoop (cfg : Config) : List AttemptResult → List Event × LoopResult
  | [] => ([], .outOfScript)
  | .success :: _ => ([.readPassword, .tryUnlock], .unlocked)
  | .fatal :: _ => ([.readPassword, .tryUnlock], .fatalErr)
  | .rejected :: rest =>
      (Event.readPassword :: Event.tryUnlock ::
        ((if cfg.clear_on_retry then [Event.clearScreen] else []) ++
          Event.writeStr (retryPromptOf cfg) :: (deviceLoop cfg rest).1),
       (deviceLoop cfg rest).2)

/-- One discovered secure device, scripted: the result of
`recv_locked` (main.rs:74; `Except.error` models a fatal transport
error there) and the sequence of `try_unlock_device` outcomes. -/
structure DeviceScript where
  lockedResult : Except Unit Bool
  attempts : List AttemptResult

/-- How the whole device `for` loop of main.rs:73-93 ends. -/
inductive RunStatus where
  | completed
  | aborted
  | hung
deriving DecidableEq, Repr

/-- The device loop of `run` (main.rs:73-93).  For each device,
`recv_locked` is queried; `Err` propagates out of `run` through `?`
(status `aborted`), `Ok(false)` skips the device (`continue`),
`Ok(true)` writes the password prompt (main.rs:79) and enters
`deviceLoop`; a fatal unlock outcome likewise propagates out of `run`
through the `?` on main.rs:83. -/
def processDevices (cfg : Config) : List DeviceScript → List Event × RunStatus
  | [] => ([], .completed)
  | d :: rest =>
    match d.lockedResult with
    | .error _ => ([], .aborted)
    | .ok false => processDevices cfg rest
    | .ok true =>
      match (deviceLoop cfg d.attempts).2 with
      | .unlocked =>
          (Event.writeStr (promptOf cfg) :: (deviceLoop cfg d.attempts).1 ++
            (processDevices cfg rest).1,
           (processDevices cfg rest).2)
      | .fatalErr => (Event.writeStr (promptOf cfg) :: (deviceLoop cfg d.attempts).1, .aborted)
      | .outOfScript => (Event.writeStr (promptOf cfg) :: (deviceLoop cfg d.attempts).1, .hung)

/-- Number of `try_unlock_device` calls recorded in a trace. -/
def countTryUnlock : List Event → Nat
  | [] => 0
  | .writeStr _ :: r => countTryUnlock r
  | .readPassword :: r => countTryUnlock r
  | .clearScreen :: r => countTryUnlock r
  | .tryUnlock :: r => countTryUnlock r + 1

/-- Number of password reads recorded in a trace. -/
def countReadPassword : List Event → Nat
  | [] => 0
  | .writeStr _ :: r => countReadPassword r
  | .readPassword :: r => countReadPassword r + 1
  | .clearScreen :: r => countReadPassword r
  | .tryUnlock :: r => countReadPassword r

/-- Number of screen clears recorded in a trace. -/
def countClear : List Event → Nat
  | [] => 0
  | .writeStr _ :: r => countClear r
  | .readPassword :: r => countClear r
  | .clearScreen :: r => countClear r + 1
  | .tryUnlock :: r => countClear r

/-- Number of console writes recorded in a trace. -/
def countWrites : List Event → Nat
  | [] => 0
  | .writeStr _ :: r => countWrites r + 1
  | .readPassword :: r => countWrites r
  | .clearScreen :: r => countWrites r
  | .tryUnlock :: r => countWrites r

/-- First non-`rejected` outcome of a script, if any: the outcome that
decides how the per-device loop ends. -/
def firstDecisive : List AttemptResult → Option AttemptResult
  | [] => none
  | .rejected :: rest => firstDecisive rest
  | .success :: _ => some .success
  | .fatal :: _ => some .fatal

/-- A sample configuration used to instantiate theorems with hypotheses. -/
def cfgA : Config := { prompt := none, retry_prompt := none, clear_on_retry := false, args := [] }

/-- Two locked devices: the first meets a fatal unlock error, the
second would unlock on the first attempt. -/
def fatalThenOkDevices : List DeviceScript :=
  [{ lockedResult := Except.ok true, attempts := [AttemptResult.fatal] },
   { lockedResult := Except.ok true, attempts := [AttemptResult.success] }]

/-- Claim C1: for a locked device whose script is `n` rejections
followed by a success, the per-device loop calls `try_unlock_device`
exactly once per operator-supplied password (`n + 1` calls for `n + 1`
password reads), exits immediately on the first success — anything
scripted after the success is never consumed — and does so for every
`n`, i.e. there is no maximum retry count. -/
theorem run_unlock_once_per_password (cfg : Config) (n : Nat) (extra : List AttemptResult) :
    deviceLoop cfg (List.replicate n .rejected ++ .success :: extra)
        = deviceLoop cfg (List.replicate n .rejected ++ [.success])
    ∧ (deviceLoop cfg (List.replicate n .rejected ++ .success :: extra)).2 = .unlocked
    ∧ countTryUnlock (deviceLoop cfg (List.replicate n .rejected ++ .success :: extra)).1 = n + 1
    ∧ countReadPassword (deviceLoop cfg (List.replicate n .rejected ++ .success :: extra)).1
        = n + 1 := by
  induction n with
  | zero => by_cases hc : cfg.clear_on_retry <;>
      simp [deviceLoop, countTryUnlock, countReadPassword]
  | succ k ih =>
      obtain ⟨ih1, ih2, ih3, ih4⟩ := ih
      rw [ih1] at ih2 ih3 ih4
      by_cases hc : cfg.clear_on_retry <;>
        simp [List.replicate_succ, deviceLoop, countTryUnlock, countReadPassword, hc,
          ih1, ih2, ih3, ih4]

/-- Claim C3: a discovered device whose locking query answers
`Ok(false)` (not locked) is skipped: processing it contributes no
events at all (no prompt write, no password read, no unlock call) and
the run continues exactly as it would on the remaining devices. -/
theorem run_skips_unlocked_device (cfg : Config) (d : DeviceScript) (rest : List DeviceScript)
    (h : d.lockedResult = Except.ok false) :
    processDevices cfg (d :: rest) = processDevices cfg rest := by
  simp [processDevices, h]

theorem run_skips_unlocked_device_witness :
    processDevices cfgA [{ lockedResult := Except.ok false, attempts := [AttemptResult.success] }]
      = processDevices cfgA [] :=
  run_skips_unlocked_device cfgA
    { lockedResult := Except.ok false, attempts := [AttemptResult.success] } [] rfl

/-- Claim C4: with the script rejected, rejected, success, the loop
trace is exactly three password reads and three unlock calls with the
retry prompt written exactly twice; when `clear_on_retry` is set the
screen is cleared immediately before each of the two retry prompts,
and when it is not set the screen is never cleared. -/
theorem run_two_rejections_retry_twice (cfg : Config) :
    deviceLoop cfg [.rejected, .rejected, .success]
      = ((if cfg.clear_on_retry then
            [Event.readPassword, Event.tryUnlock, Event.clearScreen,
             Event.writeStr (retryPromptOf cfg),
             Event.readPassword, Event.tryUnlock, Event.clearScreen,
             Event.writeStr (retryPromptOf cfg),
             Event.readPassword, Event.tryUnlock]
          else
            [Event.readPassword, Event.tryUnlock, Event.writeStr (retryPromptOf cfg),
             Event.readPassword, Event.tryUnlock, Event.writeStr (retryPromptOf cfg),
             Event.readPassword, Event.tryUnlock]), LoopResult.unlocked)
    ∧ countWrites (deviceLoop cfg [.rejected, .rejected, .success]).1 = 2
    ∧ countClear (deviceLoop cfg [.rejected, .rejected, .success]).1
        = (if cfg.clear_on_retry then 2 else 0) := by
  by_cases hc : cfg.clear_on_retry <;> simp [deviceLoop, countWrites, countClear, hc]

/-- Claim C5: every unlock attempt has exactly one of three outcomes
(success, retryable rejection, fatal error), and the per-device loop
classifies scripts by their first decisive outcome: it ends normally
(`unlocked`) precisely when the first non-rejected outcome is a
success, propagates an error precisely when it is fatal, and keeps
iterating (never ends) when every scripted outcome is a rejection. -/
theorem unlock_outcome_tristate (cfg : Config) (s : List AttemptResult) :
    (∀ r : AttemptResult, r = .success ∨ r = .rejected ∨ r = .fatal)
    ∧ ((deviceLoop cfg s).2 = .unlocked ↔ firstDecisive s = some .success)
    ∧ ((deviceLoop cfg s).2 = .fatalErr ↔ firstDecisive s = some .fatal)
    ∧ ((deviceLoop cfg s).2 = .outOfScript ↔ firstDecisive s = none) := by
  refine ⟨fun r => by cases r <;> simp, ?_⟩
  induction s with
  | nil => simp [deviceLoop, firstDecisive]
  | cons r rest ih => cases r <;>
      simp [deviceLoop, firstDecisive, ih.1, ih.2.1, ih.2.2]

/-- Claim C2 counterexample: with a first device failing fatally on
its unlock attempt and a second locked device that would unlock at
once, `run` aborts the whole run (the `?` on main.rs:83 propagates the
error out of the device loop): the status is `aborted`, and the second
device is never touched — exactly one unlock call and exactly one
console write (the first device's prompt) occur, contradicting the
claim that the orchestrator proceeds to the next device rather than
aborting the run. -/
theorem run_fatal_abandons_counterexample :
    (processDevices cfgA fatalThenOkDevices).2 = RunStatus.aborted
    ∧ countTryUnlock (processDevices cfgA fatalThenOkDevices).1 = 1
    ∧ countWrites (processDevices cfgA fatalThenOkDevices).1 = 1 :=
  ⟨rfl, rfl, rfl⟩

/-- Claim C2, amended: when a fatal error occurs while processing one
secure device — `recv_locked` returns `Err`, or the per-device loop
ends with a fatal unlock outcome — the error propagates out of `run`
through `?`, aborting the whole run: the remaining devices are not
processed, and the failed device is not retried. (`main` then logs the
error and reboots, main.rs:54-61.) -/
theorem run_fatal_aborts_run (cfg : Config) (s : List AttemptResult)
    (rest : List DeviceScript) (a : List AttemptResult) :
    processDevices cfg ({ lockedResult := Except.error (), attempts := a } :: rest)
        = ([], .aborted)
    ∧ ((deviceLoop cfg s).2 = .fatalErr →
        processDevices cfg ({ lockedResult := Except.ok true, attempts := s } :: rest)
          = (Event.writeStr (promptOf cfg) :: (deviceLoop cfg s).1, .aborted)) := by
  constructor
  · simp [processDevices]
  · intro h
    simp [processDevices, h]

theorem run_fatal_aborts_run_witness :
    processDevices cfgA [{ lockedResult := Except.error (), attempts := [] }] = ([], .aborted)
    ∧ processDevices cfgA [{ lockedResult := Except.ok true, attempts := [AttemptResult.fatal] }]
        = (Event.writeStr (promptOf cfgA) :: (deviceLoop cfgA [AttemptResult.fatal]).1,
           .aborted) :=
  ⟨(run_fatal_aborts_run cfgA [AttemptResult.fatal] [] []).1,
   (run_fatal_aborts_run cfgA [AttemptResult.fatal] [] []).2 rfl⟩

/-! ### Stateful model of `run` for the configuration frame property -/

/-- State threaded through `run`: the configuration loaded at
main.rs:69 plus the console/device world, abstracted as the trace of
performed actions.  In the source `config` is an owned binding passed
to `try_unlock_device` by shared reference (main.rs:83) and read again
for the kernel arguments (main.rs:145). -/
structure RunState where
  config : Config
  events : List Event

/-- `st.stdout().write_str(..)` (main.rs:79, 91). -/
def stWrite (s : RunState) (str : String) : RunState :=
  { s with events := s.events ++ [.writeStr str] }

/-- `input::password(st)` (main.rs:81). -/
def stReadPassword (s : RunState) : RunState :=
  { s with events := s.events ++ [.readPassword] }

/-- `st.stdout().clear()` (main.rs:89). -/
def stClear (s : RunState) : RunState :=
  { s with events := s.events ++ [.clearScreen] }

/-- `unlock_opal::try_unlock_device(st, &config, &mut device, password)`
(main.rs:83); the configuration is received by shared reference. -/
def stTryUnlock (s : RunState) : RunState :=
  { s with events := s.events ++ [.tryUnlock] }

/-- State-threading form of the per-device loop (main.rs:80-92). -/
def deviceLoopSt : RunState → List AttemptResult → RunState × LoopResult
  | s, [] => (s, .outOfScript)
  | s, .success :: _ => (stTryUnlock (stReadPassword s), .unlocked)
  | s, .fatal :: _ => (stTryUnlock (stReadPassword s), .fatalErr)
  | s, .rejected :: rest =>
      let s1 := stTryUnlock (stReadPassword s)
      let s2 := if s1.config.clear_on_retry then stClear s1 else s1
      deviceLoopSt (stWrite s2 (retryPromptOf s2.config)) rest

/-- State-threading form of the device loop of `run` (main.rs:73-93). -/
def processDevicesSt : RunState → List DeviceScript → RunState × RunStatus
  | s, [] => (s, .completed)
  | s, d :: rest =>
    match d.lockedResult with
    | .error _ => (s, .aborted)
    | .ok false => processDevicesSt s rest
    | .ok true =>
      match deviceLoopSt (stWrite s (promptOf s.config)) d.attempts with
      | (s1, .unlocked) => processDevicesSt s1 rest
      | (s1, .fatalErr) => (s1, .aborted)
      | (s1, .outOfScript) => (s1, .hung)

/-- `config.args.join(" ")` (main.rs:145): the argument list is only
read to build the load options of the chosen image. -/
def bootArgs (s : RunState) : String := " ".intercalate s.config.args

lemma deviceLoopSt_config (s : RunState) (a : List AttemptResult) :
    (deviceLoopSt s a).1.config = s.config := by
  induction a generalizing s with
  | nil => rfl
  | cons r rest ih =>
      cases r with
      | success => rfl
      | fatal => rfl
      | rejected =>
          by_cases hc : s.config.clear_on_retry <;>
            simp [deviceLoopSt, hc, ih, stWrite, stClear, stTryUnlock, stReadPassword]

lemma processDevicesSt_config (s : RunState) (devs : List DeviceScript) :
    (processDevicesSt s devs).1.config = s.config := by
  induction devs generalizing s with
  | nil => rfl
  | cons d rest ih =>
      rcases d with ⟨lr, a⟩
      match lr with
      | .error _ => rfl
      | .ok false => exact ih s
      | .ok true =>
          have hdl := deviceLoopSt_config (stWrite s (promptOf s.config)) a
          rcases hres : deviceLoopSt (stWrite s (promptOf s.config)) a with ⟨s1, res⟩
          rw [hres] at hdl
          have hs1 : s1.config = s.config := by simpa [stWrite] using hdl
          cases res <;> simp [processDevicesSt, hres, ih, hs1]

/-- Claim C6: the orchestrator never mutates the configuration after
`config::load` returns: over any execution of the device loop the
prompt text, the retry-prompt text, the `clear_on_retry` flag, and the
argument list (read only afterwards to build the load options) are
exactly those loaded at the start. -/
theorem run_reads_config_only (s : RunState) (devs : List DeviceScript) :
    (processDevicesSt s devs).1.config = s.config
    ∧ (processDevicesSt s devs).1.config.prompt = s.config.prompt
    ∧ (processDevicesSt s devs).1.config.retry_prompt = s.config.retry_prompt
    ∧ (processDevicesSt s devs).1.config.clear_on_retry = s.config.clear_on_retry
    ∧ (processDevicesSt s devs).1.config.args = s.config.args
    ∧ bootArgs (processDevicesSt s devs).1 = bootArgs s := by
  have h := processDevicesSt_config s devs
  exact ⟨h, by rw [h], by rw [h], by rw [h], by rw [h], by rw [bootArgs, bootArgs, h]⟩

/-! ### Boot-menu construction and the cleaned-index computation -/

/-- The construction of `boot_options` and `bootable_things`
(main.rs:97-111): one non-selectable header row `(false, description)`
per boot partition, followed by one selectable row `(true, "    file")`
per EFI file of that partition, each selectable row paired with a
pushed entry of `bootable_things` (modelled as the description/file
pair standing in for `(partuuid, partition, efi_file)`). -/
def buildBootLists : List (String × List String) → List (Bool × String) × List (String × String)
  | [] => ([], [])
  | (desc, fs) :: rest =>
      ((false, desc) :: ((fs.map fun f => (true, "    " ++ f)) ++ (buildBootLists rest).1),
       (fs.map fun f => (desc, f)) ++ (buildBootLists rest).2)

/-- `boot_options.iter().take(index + 1).map(|(selectable, _)| *selectable as usize).sum()`
(main.rs:116), applied to a whole list. -/
def selCount (l : List (Bool × String)) : Nat := l.countP fun x => x.1

lemma selCount_buildBootLists (ps : List (String × List String)) :
    selCount (buildBootLists ps).1 = (buildBootLists ps).2.length := by
  induction ps with
  | nil => rfl
  | cons p rest ih =>
      rcases p with ⟨desc, fs⟩
      simp [buildBootLists, selCount, List.countP_cons, List.countP_append, List.countP_map,
        Function.comp_def] at *
      omega

/-- Claim C10: for any chosen index `i` within `boot_options` whose
prefix `boot_options[0..=i]` contains at least one selectable entry
(so the `usize` subtraction at main.rs:117 cannot underflow), the
cleaned index — the number of selectable entries among the first
`i + 1` options, minus one — is a valid index into `bootable_things`
(main.rs:119). -/
theorem cleaned_index_valid (ps : List (String × List String)) (i : Nat)
    (_hi : i < (buildBootLists ps).1.length)
    (hsel : 1 ≤ selCount ((buildBootLists ps).1.take (i + 1))) :
    selCount ((buildBootLists ps).1.take (i + 1)) - 1 < (buildBootLists ps).2.length := by
  have h1 : selCount ((buildBootLists ps).1.take (i + 1)) ≤ selCount (buildBootLists ps).1 :=
    List.Sublist.countP_le _ (List.take_sublist _ _)
  have h2 := selCount_buildBootLists ps
  omega

theorem cleaned_index_valid_witness :
    selCount ((buildBootLists [("p0", ["f0"])]).1.take 2) - 1
      < (buildBootLists [("p0", ["f0"])]).2.length :=
  cleaned_index_valid [("p0", ["f0"])] 1 (by decide) (by decide)

/-! ### Opal session layer (modelled from the spec) -/

/-- Modelled from the spec: the session module
(`low_level::opal::session`) is not among the given sources.  Per §3
a session carries "a monotonically increasing sequence counter for
packet framing", and per §4.4 "a session must be discarded (not
reused) after any transport error". -/
structure OpalSession where
  next_seq : Nat
  faulted : Bool
deriving DecidableEq, Repr

/-- Errors visible to a session caller. -/
inductive SessionErr where
  | unusable
  | transport
deriving DecidableEq, Repr

/-- Modelled from the spec: issuing one framed packet within a
session.  A faulted session deterministically refuses; otherwise the
current sequence number is stamped on the packet and the counter
advances, and a transport fault marks the session faulted so that it
can never be used again (§4.4, §8 session monotonicity). -/
def sendPacket (s : OpalSession) (transportOk : Bool) : Except SessionErr Nat × OpalSession :=
  if s.faulted then (.error .unusable, s)
  else if transportOk then (.ok s.next_seq, { s with next_seq := s.next_seq + 1 })
  else (.error .transport, { s with faulted := true })

/-- Run a sequence of packet sends, the transport behaviour scripted
by `oks`, collecting the sequence numbers actually issued. -/
def runSends (s : OpalSession) : List Bool → List Nat × OpalSession
  | [] => ([], s)
  | tok :: rest =>
      match sendPacket s tok with
      | (.ok n, s1) => ((n :: (runSends s1 rest).1), (runSends s1 rest).2)
      | (.error _, s1) => runSends s1 rest

lemma runSends_faulted (s : OpalSession) (oks : List Bool) (h : s.faulted = true) :
    (runSends s oks).1 = [] := by
  induction oks with
  | nil => rfl
  | cons tok rest ih => simp [runSends, sendPacket, h, ih]

lemma runSends_lb (oks : List Bool) (s : OpalSession) :
    ∀ x ∈ (runSends s oks).1, s.next_seq ≤ x := by
  induction oks generalizing s with
  | nil => simp [runSends]
  | cons tok rest ih =>
      by_cases hf : s.faulted
      · simp only [runSends, sendPacket, hf, if_true]
        exact ih s
      · by_cases ht : tok
        · intro x hx
          simp [runSends, sendPacket, hf, ht] at hx
          rcases hx with rfl | hx
          · exact le_rfl
          · have := ih _ x hx
            simp at this
            omega
        · intro x hx
          simp [runSends, sendPacket, hf, ht] at hx
          have h1 : ({ s with faulted := true } : OpalSession).faulted = true := rfl
          rw [runSends_faulted _ _ h1] at hx
          simp at hx

/-- Claim C8: within one session the sequence numbers issued for
successive packets strictly increase (hence none is ever reused), any
transport fault leaves the session marked faulted, and a faulted
session deterministically refuses every further operation (every
session operation stamps its packets through `sendPacket`). -/
theorem session_seq_strict_mono_fault_unusable (s : OpalSession) (oks : List Bool) (t : Bool) :
    List.Pairwise (· < ·) (runSends s oks).1
    ∧ (sendPacket s false).2.faulted = true
    ∧ (s.faulted = true → sendPacket s t = (.error .unusable, s)) := by
  refine ⟨?_, ?_, ?_⟩
  · induction oks generalizing s with
    | nil => simp [runSends]
    | cons tok rest ih =>
        by_cases hf : s.faulted
        · simp only [runSends, sendPacket, hf, if_true]
          exact ih s
        · by_cases ht : tok
          · simp only [runSends, sendPacket, hf, ht, if_false, if_true, Bool.false_eq_true]
            refine List.Pairwise.cons ?_ (ih _)
            intro x hx
            have := runSends_lb rest _ x hx
            simp at this
            omega
          · simp only [runSends, sendPacket, hf, ht]
            simpa using ih { s with faulted := true }
  · by_cases hf : s.faulted <;> simp [sendPacket, hf]
  · intro h
    simp [sendPacket, h]

theorem session_seq_strict_mono_fault_unusable_witness :
    List.Pairwise (· < ·) (runSends ⟨0, false⟩ [true, true, true]).1
    ∧ sendPacket ⟨5, true⟩ true = (.error .unusable, ⟨5, true⟩) :=
  ⟨(session_seq_strict_mono_fault_unusable ⟨0, false⟩ [true, true, true] true).1,
   (session_seq_strict_mono_fault_unusable ⟨5, true⟩ [] true).2.2 rfl⟩

/-! ### Recursive EFI-file walk (main.rs:189-246) -/

/-- A node of the on-disk file tree as exposed by the firmware simple
filesystem: a regular file with its byte content, or a directory with
its entries in read order. -/
inductive FsNode where
  | file (name : String) (content : List Nat)
  | dir (name : String) (entries : List FsNode)

/-- The PE/COFF header check of main.rs:228-237: read up to two bytes
of the file; skip the file when fewer than two bytes could be read or
when the two bytes are not `0x4d 0x5a`. -/
def peCoffCheck (c : List Nat) : Bool :=
  decide (2 ≤ c.length) && decide (c.take 2 = [0x4d, 0x5a])

/-- The entry loop of `find_efi_files_rec` (main.rs:210-243) run over
the entries of a directory whose full path (with trailing backslash)
is `pre`: `.` and `..` entries are skipped, a regular file is appended
when the PE/COFF check passes, a subdirectory is walked recursively
with the extended path. -/
def walkEntries (pre : String) : List FsNode → List String
  | [] => []
  | .file n c :: rest =>
      (if n = "." ∨ n = ".." then []
       else if peCoffCheck c then [pre ++ n] else []) ++ walkEntries pre rest
  | .dir n es :: rest =>
      (if n = "." ∨ n = ".." then []
       else walkEntries (pre ++ n ++ "\\") es) ++ walkEntries pre rest

/-- `find_efi_files_rec` (main.rs:202-246): reads the visited
directory's own name (main.rs:205-207), extends the path prefix with
it and a backslash, and walks the entries. -/
def find_efi_files_rec (pre : String) (dirName : String) (entries : List FsNode) : List String :=
  walkEntries (pre ++ dirName ++ "\\") entries

/-- `find_efi_files` (main.rs:189-200): the walk started on the volume
root directory with the empty prefix. -/
def find_efi_files (rootName : String) (rootEntries : List FsNode) : List String :=
  find_efi_files_rec "" rootName rootEntries

/-- Every regular file reachable from a list of entries, with its full
path, entry name and content, no filtering of files; directories named
`.` or `..` are not descended into (the source never enumerates
them). -/
def regularFiles (pre : String) : List FsNode → List (String × String × List Nat)
  | [] => []
  | .file n c :: rest => (pre ++ n, n, c) :: regularFiles pre rest
  | .dir n es :: rest =>
      (if n = "." ∨ n = ".." then []
       else regularFiles (pre ++ n ++ "\\") es) ++ regularFiles pre rest

lemma walkEntries_eq_filter (pre : String) (l : List FsNode) :
    walkEntries pre l
      = (regularFiles pre l).filterMap
          (fun t => if t.2.1 ≠ "." ∧ t.2.1 ≠ ".." ∧ peCoffCheck t.2.2 then some t.1 else none) := by
  induction pre, l using walkEntries.induct with
  | case1 pre => simp [walkEntries, regularFiles]
  | case2 pre n c rest ih =>
      by_cases hdot : n = "." ∨ n = ".."
      · rcases hdot with rfl | rfl <;>
          simp [walkEntries, regularFiles, List.filterMap_cons, ih]
      · have hn : n ≠ "." ∧ n ≠ ".." := by tauto
        by_cases hpe : peCoffCheck c <;>
          simp [walkEntries, regularFiles, List.filterMap_cons, hdot, hn.1, hn.2, hpe, ih]
  | case3 pre n es rest ihsub ihrest =>
      by_cases hdot : n = "." ∨ n = ".."
      · rcases hdot with rfl | rfl <;>
          simp [walkEntries, regularFiles, ihrest]
      · simp [walkEntries, regularFiles, hdot, ihsub, ihrest, List.filterMap_append]

/-- Claim C9: the file names collected by `find_efi_files_rec` are
exactly the full paths of the reachable regular files (never
directories) whose entry name is neither `.` nor `..` and whose
content starts with the two PE/COFF magic bytes `0x4d 0x5a` (so has at
least two bytes); files failing a check are merely dropped, the walk
continuing with the remaining entries. -/
theorem find_efi_files_rec_characterization (pre dirName : String) (entries : List FsNode) :
    find_efi_files_rec pre dirName entries
      = (regularFiles (pre ++ dirName ++ "\\") entries).filterMap
          (fun t => if t.2.1 ≠ "." ∧ t.2.1 ≠ ".." ∧ peCoffCheck t.2.2 then some t.1 else none) :=
  walkEntries_eq_filter _ entries

/-! ### Opal wire codec atoms (modelled from the spec) -/

/-- Modelled from the spec: the wire codec (`low_level::opal`) is not
among the given sources.  A value carried by an Opal atom: a signed
integer or a byte string (§3 Atom). -/
inductive OpalValue where
  | int (i : Int)
  | bytes (b : List Nat)
deriving DecidableEq, Repr

/-- Minimal big-endian byte representation of a natural number (empty
for zero), fuel-driven so that it reduces by evaluation. -/
def natToBytesAux : Nat → Nat → List Nat
  | 0, _ => []
  | fuel + 1, n => if n = 0 then [] else natToBytesAux fuel (n / 256) ++ [n % 256]

def natToBytes (n : Nat) : List Nat := natToBytesAux n n

/-- Big-endian value of a byte list. -/
def bytesToNat (l : List Nat) : Nat := l.foldl (fun a b => a * 256 + b) 0

/-- Modelled from the spec (§4.2): encode a value as the smallest atom
form that represents it — a tiny atom (one byte, `0x00`-`0x3f`) for
small non-negative integers up to 63; a short atom (header
`0b10_B_S_LLLL` then up to 15 payload bytes) for other integers, the
sign bit set for negatives, and for byte strings of up to 15 bytes; a
medium atom (header `0b110_B_S_LLL` plus one more length byte, up to
2047 payload bytes) and a long atom (header `0b111000_B_S` plus three
big-endian length bytes, up to `2^24 - 1` payload bytes) for longer
byte strings. -/
def encodeAtom : OpalValue → List Nat
  | .int i =>
      if 0 ≤ i ∧ i ≤ 63 then [i.toNat]
      else ((if i < 0 then 144 else 128) + (natToBytes i.natAbs).length) :: natToBytes i.natAbs
  | .bytes b =>
      if b.length ≤ 15 then (160 + b.length) :: b
      else if b.length < 2048 then (208 + b.length / 256) :: (b.length % 256) :: b
      else 226 :: (b.length / 65536) :: (b.length / 256 % 256) :: (b.length % 256) :: b

/-- Modelled from the spec (§4.2): decode one atom from the head of a
byte stream, returning the value and the unconsumed rest; `none` for a
malformed or truncated atom or an unsupported tag. -/
def decodeAtom : List Nat → Option (OpalValue × List Nat)
  | [] => none
  | h :: t =>
    if h < 64 then some (.int h, t)
    else if h < 128 then none
    else if h < 192 then
      let len := h % 16
      if len ≤ t.length then
        if h / 32 % 2 = 1 then some (.bytes (t.take len), t.drop len)
        else if h / 16 % 2 = 1 then some (.int (-(bytesToNat (t.take len) : Int)), t.drop len)
        else some (.int (bytesToNat (t.take len)), t.drop len)
      else none
    else if h < 224 then
      match t with
      | h2 :: t2 =>
        if h / 16 % 2 = 1 then
          let len := h % 8 * 256 + h2
          if len ≤ t2.length then some (.bytes (t2.take len), t2.drop len) else none
        else none
      | [] => none
    else
      match t with
      | b2 :: b1 :: b0 :: t3 =>
        if h % 4 / 2 = 1 then
          let len := (b2 * 256 + b1) * 256 + b0
          if len ≤ t3.length then some (.bytes (t3.take len), t3.drop len) else none
        else none
      | _ => none

/-- Decode a stream holding exactly one atom. -/
def decode (l : List Nat) : Option OpalValue :=
  (decodeAtom l).bind fun p => if p.2 = [] then some p.1 else none

/-- The values the codec supports: integers whose magnitude fits the
15 payload bytes of a short atom, and byte strings of wire bytes with
a length expressible in the 24-bit length field of a long atom. -/
def ValidOpalValue : OpalValue → Prop
  | .int i => (natToBytes i.natAbs).length ≤ 15
  | .bytes b => b.length < 16777216 ∧ ∀ x ∈ b, x < 256

instance : DecidablePred ValidOpalValue := fun v =>
  match v with
  | .int i => inferInstanceAs (Decidable ((natToBytes i.natAbs).length ≤ 15))
  | .bytes b => inferInstanceAs (Decidable (b.length < 16777216 ∧ ∀ x ∈ b, x < 256))

/-- The four atom forms of the wire grammar. -/
inductive AtomForm where
  | tiny
  | short
  | medium
  | long
deriving DecidableEq, Repr

/-- The atom form an encoded atom starts with, read off its first
(header) byte. -/
def formOf (l : List Nat) : Option AtomForm :=
  match l with
  | [] => none
  | h :: _ =>
    if h < 64 then some .tiny
    else if h < 128 then none
    else if h < 192 then some .short
    else if h < 224 then some .medium
    else some .long

/-- Modelled from the spec (§4.2): the minimal atom form for a value —
tiny for small non-negative integers up to 63, short for other
integers and byte strings of up to 15 bytes, medium up to 2047 bytes,
long beyond. -/
def minimalForm : OpalValue → AtomForm
  | .int i => if 0 ≤ i ∧ i ≤ 63 then .tiny else .short
  | .bytes b => if b.length ≤ 15 then .short else if b.length < 2048 then .medium else .long

lemma bytesToNat_append (l : List Nat) (b : Nat) :
    bytesToNat (l ++ [b]) = bytesToNat l * 256 + b := by
  simp [bytesToNat, List.foldl_append]

lemma natToBytesAux_spec (fuel : Nat) :
    ∀ n, n ≤ fuel → bytesToNat (natToBytesAux fuel n) = n := by
  induction fuel with
  | zero =>
      intro n hn
      have h0 : n = 0 := by omega
      subst h0
      rfl
  | succ f ih =>
      intro n hn
      by_cases h0 : n = 0
      · subst h0
        simp [natToBytesAux, bytesToNat]
      · have hlt : n / 256 ≤ f := by
          have := Nat.div_lt_self (Nat.pos_of_ne_zero h0) (by norm_num : 1 < 256)
          omega
        simp only [natToBytesAux, h0, if_false, bytesToNat_append, ih _ hlt]
        omega

lemma bytesToNat_natToBytes (n : Nat) : bytesToNat (natToBytes n) = n :=
  natToBytesAux_spec n n le_rfl

lemma decodeAtom_tiny (n : Nat) (t : List Nat) (h : n < 64) :
    decodeAtom (n :: t) = some (.int n, t) := by
  simp [decodeAtom, h]

lemma decodeAtom_short_int_nonneg (P : List Nat) (hL : P.length ≤ 15) :
    decodeAtom ((128 + P.length) :: P) = some (.int (bytesToNat P), []) := by
  have c1 : ¬(128 + P.length < 64) := by omega
  have c2 : ¬(128 + P.length < 128) := by omega
  have c3 : 128 + P.length < 192 := by omega
  have e1 : (128 + P.length) % 16 = P.length := by omega
  have e2 : (128 + P.length) / 32 % 2 = 0 := by omega
  have e3 : (128 + P.length) / 16 % 2 = 0 := by omega
  simp [decodeAtom, c1, c2, c3, e1, e2, e3]

lemma decodeAtom_short_int_neg (P : List Nat) (hL : P.length ≤ 15) :
    decodeAtom ((144 + P.length) :: P) = some (.int (-(bytesToNat P : Int)), []) := by
  have c1 : ¬(144 + P.length < 64) := by omega
  have c2 : ¬(144 + P.length < 128) := by omega
  have c3 : 144 + P.length < 192 := by omega
  have e1 : (144 + P.length) % 16 = P.length := by omega
  have e2 : (144 + P.length) / 32 % 2 = 0 := by omega
  have e3 : (144 + P.length) / 16 % 2 = 1 := by omega
  simp [decodeAtom, c1, c2, c3, e1, e2, e3]

lemma decodeAtom_short_bytes (P : List Nat) (hL : P.length ≤ 15) :
    decodeAtom ((160 + P.length) :: P) = some (.bytes P, []) := by
  have c1 : ¬(160 + P.length < 64) := by omega
  have c2 : ¬(160 + P.length < 128) := by omega
  have c3 : 160 + P.length < 192 := by omega
  have e1 : (160 + P.length) % 16 = P.length := by omega
  have e2 : (160 + P.length) / 32 % 2 = 1 := by omega
  simp [decodeAtom, c1, c2, c3, e1, e2]

lemma decodeAtom_medium_bytes (P : List Nat) (hlo : 15 < P.length) (hhi : P.length < 2048) :
    decodeAtom ((208 + P.length / 256) :: (P.length % 256) :: P) = some (.bytes P, []) := by
  have c1 : ¬(208 + P.length / 256 < 64) := by omega
  have c2 : ¬(208 + P.length / 256 < 128) := by omega
  have c3 : ¬(208 + P.length / 256 < 192) := by omega
  have c4 : 208 + P.length / 256 < 224 := by omega
  have e1 : (208 + P.length / 256) / 16 % 2 = 1 := by omega
  have e2 : (208 + P.length / 256) % 8 * 256 + P.length % 256 = P.length := by omega
  simp [decodeAtom, c1, c2, c3, c4, e1, e2]

lemma decodeAtom_long_bytes (P : List Nat) (_hlo : 2048 ≤ P.length) (_hhi : P.length < 16777216) :
    decodeAtom (226 :: (P.length / 65536) :: (P.length / 256 % 256) :: (P.length % 256) :: P)
      = some (.bytes P, []) := by
  have e1 : (P.length / 65536 * 256 + P.length / 256 % 256) * 256 + P.length % 256
      = P.length := by omega
  simp [decodeAtom, e1]

/-- Claim C7: for every value supported by the codec, decoding the
encoding yields the value back, and the encoder always emits the
minimal atom form for the value — in particular a small non-negative
integer such as 5 is emitted as a tiny atom, never a long one. -/
theorem atom_roundtrip_minimal (v : OpalValue) (hv : ValidOpalValue v) :
    decode (encodeAtom v) = some v ∧ formOf (encodeAtom v) = some (minimalForm v) := by
  cases v with
  | int i =>
      by_cases ht : 0 ≤ i ∧ i ≤ 63
      · have h64 : i.toNat < 64 := by omega
        have hi : (i.toNat : Int) = i := Int.toNat_of_nonneg ht.1
        constructor
        · simp [encodeAtom, ht, decode, decodeAtom_tiny _ _ h64, hi]
        · simp [encodeAtom, formOf, minimalForm, ht, h64]
      · have hL : (natToBytes i.natAbs).length ≤ 15 := hv
        by_cases hneg : i < 0
        · have he : encodeAtom (.int i)
              = (144 + (natToBytes i.natAbs).length) :: natToBytes i.natAbs := by
            simp [encodeAtom, ht, hneg]
          constructor
          · rw [he]
            have hdec := decodeAtom_short_int_neg (natToBytes i.natAbs) hL
            rw [bytesToNat_natToBytes] at hdec
            have hni : (-(i.natAbs : Int)) = i := by omega
            rw [hni] at hdec
            simp [decode, hdec]
          · rw [he]
            have c1 : ¬(144 + (natToBytes i.natAbs).length < 64) := by omega
            have c2 : ¬(144 + (natToBytes i.natAbs).length < 128) := by omega
            have c3 : 144 + (natToBytes i.natAbs).length < 192 := by omega
            simp [formOf, minimalForm, ht, c1, c2, c3]
        · have he : encodeAtom (.int i)
              = (128 + (natToBytes i.natAbs).length) :: natToBytes i.natAbs := by
            simp [encodeAtom, ht, hneg]
          constructor
          · rw [he]
            have hdec := decodeAtom_short_int_nonneg (natToBytes i.natAbs) hL
            rw [bytesToNat_natToBytes] at hdec
            have hni : ((i.natAbs : Int)) = i := by omega
            rw [hni] at hdec
            simp [decode, hdec]
          · rw [he]
            have c1 : ¬(128 + (natToBytes i.natAbs).length < 64) := by omega
            have c2 : ¬(128 + (natToBytes i.natAbs).length < 128) := by omega
            have c3 : 128 + (natToBytes i.natAbs).length < 192 := by omega
            simp [formOf, minimalForm, ht, c1, c2, c3]
  | bytes b =>
      have hlen : b.length < 16777216 := hv.1
      by_cases h15 : b.length ≤ 15
      · constructor
        · simp [encodeAtom, h15, decode, decodeAtom_short_bytes _ h15]
        · have c1 : ¬(160 + b.length < 64) := by omega
          have c2 : ¬(160 + b.length < 128) := by omega
          have c3 : 160 + b.length < 192 := by omega
          simp [encodeAtom, formOf, minimalForm, h15, c1, c2, c3]
      · by_cases h2048 : b.length < 2048
        · have hlo : 15 < b.length := by omega
          constructor
          · simp [encodeAtom, h15, h2048, decode, decodeAtom_medium_bytes _ hlo h2048]
          · have c1 : ¬(208 + b.length / 256 < 64) := by omega
            have c2 : ¬(208 + b.length / 256 < 128) := by omega
            have c3 : ¬(208 + b.length / 256 < 192) := by omega
            have c4 : 208 + b.length / 256 < 224 := by omega
            simp [encodeAtom, formOf, minimalForm, h15, h2048, c1, c2, c3, c4]
        · have hlo : 2048 ≤ b.length := by omega
          constructor
          · simp [encodeAtom, h15, h2048, decode, decodeAtom_long_bytes _ hlo hlen]
          · simp [encodeAtom, formOf, minimalForm, h15, h2048]

theorem atom_roundtrip_minimal_witness :
    decode (encodeAtom (OpalValue.int 5)) = some (OpalValue.int 5)
    ∧ formOf (encodeAtom (OpalValue.int 5)) = some AtomForm.tiny :=
  ⟨(atom_roundtrip_minimal (OpalValue.int 5) (by decide)).1,
   (atom_roundtrip_minimal (OpalValue.int 5) (by decide)).2⟩

end OpalGreeter
